import Mathlib

/-!
Verification of the TITAN Forge IDE conversation-context pipeline.

The development shallowly embeds the core of the repository:
* `titan-core/contextBuilder.ts` (`buildContext`, `normalizePath`, override and
  protected-path handling),
* `titan-core/reader.ts` (`readDocument`, `normalizeRelativePath`, the
  extension table),
* the chat provider (`handleSendMessage` staleness/diagnostic gating,
  `getBlockingDiagnostics`, `pruneContext`, `normalizePath`),
* `LiveWorkspaceState` (revision counter),
* `OllamaClient.streamCompletion` (the streaming callback machine).

JavaScript string primitives (`replace`, `trim`, `toLowerCase`, `split`,
`startsWith`, `slice`) are modelled by structurally recursive functions over
`List Char`, so every definition evaluates by kernel reduction.  JS
`toLowerCase`/`trim` are modelled on their ASCII behaviour, which is the
range exercised by the repository's paths.
-/

/-- The whitespace characters removed by JS `String.prototype.trim`
(ASCII subset). -/
def isWsChar (c : Char) : Bool :=
  c = ' ' || c = '\t' || c = '\n' || c = '\r'

/-- ASCII lowercasing of one character (codes 65-90 map to 97-122), the
behaviour of JS `toLowerCase` on the character range used by the
repository's paths. -/
def lowerChar (c : Char) : Char :=
  if 65 ≤ c.toNat ∧ c.toNat ≤ 90 then Char.ofNat (c.toNat + 32) else c

/-- `value.replace(/\\/g, '/')`: global backslash-to-slash replacement. -/
def slashChar (c : Char) : Char :=
  if c = '\\' then '/' else c

/-- Map over the characters of a list (JS `replace` with a global
single-character pattern). -/
def slashifyL (cs : List Char) : List Char := cs.map slashChar

/-- JS `trim` on a character list: drop whitespace from both ends. -/
def trimL (cs : List Char) : List Char :=
  ((cs.dropWhile isWsChar).reverse.dropWhile isWsChar).reverse

/-- Lowercase every character (JS `toLowerCase`, ASCII). -/
def lowerL (cs : List Char) : List Char := cs.map lowerChar

/-- `value.replace(/^\.?\//, '')`: strip one leading `./` or `/`
(the regex matches an optional dot followed by a slash, once, anchored). -/
def stripDotSlashL (cs : List Char) : List Char :=
  if ['.', '/'].isPrefixOf cs then cs.drop 2
  else if ['/'].isPrefixOf cs then cs.drop 1
  else cs

/-- `value.replace(/^\.\?\//, '')` as written in
`titan-core/contextBuilder.ts:81`: the `?` is escaped, so the regex strips
one leading occurrence of the literal three-character string `.?/`. -/
def stripLiteralDotQmSlashL (cs : List Char) : List Char :=
  if ['.', '?', '/'].isPrefixOf cs then cs.drop 3 else cs

/-- JS `String.prototype.trim` lifted to `String`. -/
def jsTrim (s : String) : String := String.mk (trimL s.data)

namespace ContextBuilder

/-- `normalizePath` from `titan-core/contextBuilder.ts:80-82`:
`value.replace(/\\/g, '/').replace(/^\.\?\//, '').trim().toLowerCase()`.
Note the escaped `?` in the source regex: the stripped prefix is the
literal `.?/`, not an optional dot followed by a slash. -/
def normalizePath (value : String) : String :=
  String.mk (lowerL (trimL (stripLiteralDotQmSlashL (slashifyL value.data))))

/-- `DocumentType` from `titan-core/types.ts`. -/
inductive DocumentType where
  | code | text | json | pdf | docx
  deriving DecidableEq, Repr

/-- Document provenance: live editor buffer or disk read. -/
inductive DocumentSource where
  | editor | disk
  deriving DecidableEq, Repr

/-- `DocumentOverride` from `titan-core/types.ts`: caller-supplied live
buffer content.  Optional fields are `Option`s, matching the TS optional
properties. -/
structure DocumentOverride where
  path : String
  content : Option String := none
  type : Option DocumentType := none
  truncated : Option Bool := none
  version : Option Nat := none
  capturedAt : Option Nat := none
  deriving Repr, DecidableEq

/-- `DocumentReadResult` from `titan-core/types.ts`. -/
structure DocumentReadResult where
  path : String
  type : DocumentType
  text : String
  truncated : Bool
  source : DocumentSource
  version : Option Nat := none
  capturedAt : Option Nat := none
  deriving Repr, DecidableEq

/-- `ContextFile`: one entry of the assembled bundle. -/
structure ContextFile where
  path : String
  type : DocumentType
  content : String
  source : DocumentSource
  version : Option Nat := none
  capturedAt : Option Nat := none
  deriving Repr, DecidableEq

/-- `BuildContextInput`.  `rootDir` is dropped from the model: disk reads
are abstracted by the `readDoc` oracle passed to `buildContext`, which
stands for `readDocument(rootDir, ·)`. -/
structure BuildContextInput where
  activeFile : Option String := none
  requestedFiles : List String := []
  overrides : List DocumentOverride := []
  protectedPaths : List String := []
  maxChars : Option Int := none
  deriving Repr, DecidableEq

/-- `BuildContextOutput`. -/
structure BuildContextOutput where
  files : List ContextFile
  totalChars : Nat
  truncated : Bool
  deriving Repr, DecidableEq

/-- `DEFAULT_MAX_CHARS` (`contextBuilder.ts:10`). -/
def DEFAULT_MAX_CHARS : Nat := 8000

/-- The effective budget:
`typeof input.maxChars === 'number' && input.maxChars > 0 ? input.maxChars
: DEFAULT_MAX_CHARS` (`contextBuilder.ts:14-15`). -/
def effectiveMaxChars (maxChars : Option Int) : Nat :=
  match maxChars with
  | some m => if 0 < m then m.toNat else DEFAULT_MAX_CHARS
  | none => DEFAULT_MAX_CHARS

/-- `buildOverrideMap` (`contextBuilder.ts:84-97`): keep overrides whose
normalized path is nonempty, keyed by the normalized path.  `Map.set`
overwrites, so a later override with the same key wins. -/
def buildOverrideMap (overrides : List DocumentOverride) :
    List (String × DocumentOverride) :=
  overrides.filterMap fun o =>
    let key := normalizePath o.path
    if key = "" then none else some (key, o)

/-- Lookup in the override map; the last inserted binding for a key wins,
mirroring `Map.set`. -/
def overrideLookup (m : List (String × DocumentOverride)) (key : String) :
    Option DocumentOverride :=
  (m.reverse.find? fun e => e.1 = key).map (·.2)

/-- `buildProtectedPathSet` (`contextBuilder.ts:99-111`): the nonempty
normalized protected paths. -/
def buildProtectedPathSet (paths : List String) : List String :=
  (paths.map normalizePath).filter (· ≠ "")

/-- `resolveDocument` (`contextBuilder.ts:113-132`): an override wins over
the disk; otherwise delegate to the reader oracle. -/
def resolveDocument (readDoc : String → Option DocumentReadResult)
    (normalizedPath : String) (overrides : List (String × DocumentOverride)) :
    Option DocumentReadResult :=
  match overrideLookup overrides normalizedPath with
  | some o =>
      some {
        path := o.path
        type := o.type.getD .code
        text := o.content.getD ""
        truncated := o.truncated.getD false
        source := .editor
        version := o.version
        capturedAt := o.capturedAt }
  | none => readDoc normalizedPath

/-- The mutable state threaded through `tryAddFile`
(`files`, `seen`, `usedChars`, `truncated` in `contextBuilder.ts:17-20`). -/
structure BuildState where
  files : List ContextFile := []
  seen : List String := []
  usedChars : Nat := 0
  truncated : Bool := false
  deriving Repr, DecidableEq

/-- `tryAddFile` (`contextBuilder.ts:25-69`).  Throwing is modelled with
`Except String`. -/
def tryAddFile (readDoc : String → Option DocumentReadResult)
    (overrides : List (String × DocumentOverride))
    (protectedPaths : List String) (maxChars : Nat)
    (st : BuildState) (relativePath : Option String) :
    Except String BuildState :=
  match relativePath with
  | none => .ok st
  | some rp =>
    if rp = "" then .ok st
    else
      let normalized := normalizePath rp
      if normalized = "" ∨ normalized ∈ st.seen then .ok st
      else if normalized ∈ protectedPaths ∧ overrideLookup overrides normalized = none then
        .error s!"Cannot read {rp} from disk: open editor buffer must be provided as an override."
      else
        match resolveDocument readDoc normalized overrides with
        | none =>
            if normalized ∈ protectedPaths then
              .error s!"Editor buffer for {rp} was not available."
            else .ok st
        | some document =>
            let remaining : Int := (maxChars : Int) - (st.usedChars : Int)
            if remaining ≤ 0 then .ok { st with truncated := true }
            else
              let content :=
                if (document.text.length : Int) > remaining then
                  String.mk (document.text.data.take remaining.toNat)
                else document.text
              let truncatedNow :=
                st.truncated ∨ content.length < document.text.length ∨ document.truncated
              .ok {
                files := st.files ++ [{
                  path := document.path
                  type := document.type
                  content := content
                  source := document.source
                  version := document.version
                  capturedAt := document.capturedAt }]
                seen := st.seen ++ [normalized]
                usedChars := st.usedChars + content.length
                truncated := truncatedNow }

/-- The `for` loop over `input.requestedFiles` (`contextBuilder.ts:73-75`):
try each requested file in order, propagating a thrown error. -/
def addRequestedFiles (readDoc : String → Option DocumentReadResult)
    (overrides : List (String × DocumentOverride))
    (protectedPaths : List String) (maxChars : Nat) :
    BuildState → List String → Except String BuildState
  | st, [] => .ok st
  | st, file :: rest =>
    match tryAddFile readDoc overrides protectedPaths maxChars st (some file) with
    | .error e => .error e
    | .ok st' => addRequestedFiles readDoc overrides protectedPaths maxChars st' rest

/-- `buildContext` (`contextBuilder.ts:12-78`): active file first, then the
requested files in order.  `readDoc` abstracts
`readDocument(rootDir, ·)`. -/
def buildContext (readDoc : String → Option DocumentReadResult)
    (input : BuildContextInput) : Except String BuildContextOutput :=
  let maxChars := effectiveMaxChars input.maxChars
  let overrides := buildOverrideMap input.overrides
  let protectedPaths := buildProtectedPathSet input.protectedPaths
  match tryAddFile readDoc overrides protectedPaths maxChars {} input.activeFile with
  | .error e => .error e
  | .ok st₁ =>
    match addRequestedFiles readDoc overrides protectedPaths maxChars st₁
        input.requestedFiles with
    | .error e => .error e
    | .ok stFinal =>
      .ok { files := stFinal.files, totalChars := stFinal.usedChars,
            truncated := stFinal.truncated }

/-- Sum of the content lengths of the files of a bundle state. -/
def sumContentLengths (files : List ContextFile) : Nat :=
  (files.map fun f => f.content.length).sum

end ContextBuilder

namespace Reader

open ContextBuilder (DocumentType DocumentReadResult)

/-- `normalizeRelativePath` from `titan-core/reader.ts:52-54`:
`value.replace(/\\/g, '/').replace(/^\.?\//, '').trim()`.
Unlike the context builder's `normalizePath`, the regex here has an
unescaped `?` (optional dot then slash) and there is no lowercasing. -/
def normalizeRelativePath (value : String) : String :=
  String.mk (trimL (stripDotSlashL (slashifyL value.data)))

/-- The last path segment of a `/`-separated path (the basename
`path.extname` inspects). -/
def basenameL (cs : List Char) : List Char :=
  (cs.reverse.takeWhile (· ≠ '/')).reverse

/-- Model of Node's `path.extname`: the suffix of the basename from its
last `.`, empty when the only `.` is the leading one (dotfiles) or when
the basename is `..`. -/
def extnameL (cs : List Char) : List Char :=
  let base := basenameL cs
  if base = ['.', '.'] then []
  else
    let afterDot := (base.reverse.takeWhile (· ≠ '.')).reverse
    if base.contains '.' ∧ afterDot.length + 1 < base.length then
      '.' :: afterDot
    else []

/-- `path.extname` lifted to `String`. -/
def extname (s : String) : String := String.mk (extnameL s.data)

/-- Model of `path.join(rootDir, normalized)`: segment concatenation.
(`path.join` additionally collapses `.`/`..` segments, which none of the
verified properties exercise.) -/
def pathJoin (rootDir normalized : String) : String :=
  rootDir ++ "/" ++ normalized

/-- `TEXT_EXTENSION_MAP` from `titan-core/reader.ts:8-14`. -/
def TEXT_EXTENSION_MAP : List (String × DocumentType) :=
  [(".ts", .code), (".js", .code), (".json", .json), (".md", .text), (".txt", .text)]

/-- What `fs.stat` reports for a path: `none` models a thrown error
(missing path), `some isFile` a successful stat. -/
structure StatResult where
  isFile : Bool
  deriving Repr, DecidableEq

/-- The file-system and format-parsing oracle consumed by `readDocument`:
`stat` models `fs.stat`, and the three readers model
`readTextDocument` / `readPdfDocument` / `readDocxDocument`
(each may return `null`). -/
structure FsModel where
  stat : String → Option StatResult
  readText : String → String → DocumentType → Option DocumentReadResult
  readPdf : String → String → Option DocumentReadResult
  readDocx : String → String → Option DocumentReadResult

/-- `readDocument` from `titan-core/reader.ts:16-50`. -/
def readDocument (m : FsModel) (rootDir relativePath : String) :
    Option DocumentReadResult :=
  let normalized := normalizeRelativePath relativePath
  if normalized = "" then none
  else
    let fullPath := pathJoin rootDir normalized
    match m.stat fullPath with
    | none => none
    | some stat =>
      if !stat.isFile then none
      else
        let ext := String.mk (lowerL (extname fullPath).data)
        match (TEXT_EXTENSION_MAP.find? fun e => e.1 = ext).map (·.2) with
        | some textType => m.readText fullPath normalized textType
        | none =>
          if ext = ".pdf" then m.readPdf fullPath normalized
          else if ext = ".docx" then m.readDocx fullPath normalized
          else none

/-- The extensions `readDocument` is willing to read from disk. -/
def allowedExtensions : List String :=
  [".ts", ".js", ".json", ".md", ".txt", ".pdf", ".docx"]

end Reader

namespace LiveWorkspace

/-- The workspace mutation events `LiveWorkspaceState.registerListeners`
subscribes to (`state/liveWorkspaceState.ts`, src/unnamed/part_009:148-195).
Each listener forwards exactly one `emitChange` per occurrence. -/
inductive WorkspaceEvent where
  | docOpened | docChanged | docSaved | docClosed
  | activeEditorChanged
  | filesCreated | filesDeleted | filesRenamed | foldersChanged
  | diagnosticsChanged
  deriving Repr, DecidableEq

/-- `emitChange`/`bumpRevision` (part_009:210-218): every observed event
increments the private `revision` field by one, whatever the event is. -/
def step (revision : Nat) (_ : WorkspaceEvent) : Nat := revision + 1

/-- The value `getRevision()` returns after a sequence of observed events:
the `revision` field starts at `0` (part_009:37) and is bumped once per
event. -/
def revisionAfter (events : List WorkspaceEvent) : Nat :=
  events.foldl step 0

end LiveWorkspace

namespace ChatProvider

/-- `ChatProvider.normalizePath` (src/unnamed/part_011:1524-1530):
`value.replace(/\\/g, '/').replace(/^\.?\//, '').trim().toLowerCase()`,
returning `null` for an empty input or an empty normal form. -/
def normalizePath (value : String) : Option String :=
  if value = "" then none
  else
    let normalized := String.mk (lowerL (trimL (stripDotSlashL (slashifyL value.data))))
    if normalized.length > 0 then some normalized else none

/-- The total core of `ChatProvider.normalizePath` (and of the identical
`normalizePath` in `state/liveWorkspace.ts`, part_009:221-227), without
the null wrapping. -/
def normalizeCore (value : String) : String :=
  String.mk (lowerL (trimL (stripDotSlashL (slashifyL value.data))))

/-- Message roles (part_011:14-18). -/
inductive Role where
  | user | assistant
  deriving Repr, DecidableEq

/-- `ChatMessage` (part_011:14-18). -/
structure ChatMessage where
  role : Role
  content : String
  timestamp : Nat
  deriving Repr, DecidableEq

/-- `ChatSession` (part_011:35-40). -/
structure ChatSession where
  id : String
  title : String
  messages : List ChatMessage
  workspaceContext : List String
  deriving Repr, DecidableEq

/-- `MAX_HISTORY` (part_011:125). -/
def MAX_HISTORY : Nat := 10

/-- `MAX_PERSISTED_WORKSPACE_CONTEXT` (part_011:126). -/
def MAX_PERSISTED_WORKSPACE_CONTEXT : Nat := 5

/-- `MAX_CONTEXT_PREP_ATTEMPTS` (part_011:127). -/
def MAX_CONTEXT_PREP_ATTEMPTS : Nat := 3

/-- JS `array.slice(-n)` for `n > 0`: the last `n` elements. -/
def sliceLast (l : List α) (n : Nat) : List α := l.drop (l.length - n)

/-- `pruneContext` (part_011:662-672): cap `messages` to the last
`MAX_HISTORY` entries and `workspaceContext` to the last
`MAX_PERSISTED_WORKSPACE_CONTEXT` entries. -/
def pruneContext (session : ChatSession) : ChatSession :=
  let messages :=
    if session.messages.length > MAX_HISTORY then
      sliceLast session.messages MAX_HISTORY
    else session.messages
  let workspaceContext :=
    if session.workspaceContext.length > MAX_PERSISTED_WORKSPACE_CONTEXT then
      sliceLast session.workspaceContext MAX_PERSISTED_WORKSPACE_CONTEXT
    else session.workspaceContext
  { session with messages := messages, workspaceContext := workspaceContext }

/-- `ActiveEditorContext` (part_011:42-50). -/
structure ActiveEditorContext where
  path : String
  languageId : String
  content : String
  truncated : Bool
  version : Nat
  capturedAt : Nat
  deriving Repr, DecidableEq

/-- `RequestedFileContext` (part_011:52-58). -/
structure RequestedFileContext where
  path : String
  content : String
  source : ContextBuilder.DocumentSource
  version : Option Nat := none
  capturedAt : Option Nat := none
  deriving Repr, DecidableEq

/-- Diagnostic severities (part_011:62). -/
inductive Severity where
  | error | warning | informational | hint
  deriving Repr, DecidableEq

/-- A source range (part_011:64-69). -/
structure DiagnosticRange where
  startLine : Nat
  startCharacter : Nat
  endLine : Nat
  endCharacter : Nat
  deriving Repr, DecidableEq

/-- `DiagnosticEntry` (part_011:59-70).  The optional `code` field
(string-or-number in TS) is modelled as an optional string. -/
structure DiagnosticEntry where
  path : String
  message : String
  severity : Severity
  code : Option String := none
  range : DiagnosticRange
  deriving Repr, DecidableEq

/-- `ConversationContext` (part_011:72-80). -/
structure ConversationContext where
  editor : Option ActiveEditorContext := none
  workspaceFiles : List String := []
  requestedFiles : List RequestedFileContext := []
  diagnostics : List DiagnosticEntry := []
  revision : Nat
  editorOverrides : Nat := 0
  diskFiles : Nat := 0
  deriving Repr, DecidableEq

/-- The `trackedPaths` set built at the top of `getBlockingDiagnostics`
(part_011:1146-1153): the normalized active-editor path (when present)
and the normalized path of every requested file, each falling back to the
raw path when normalization yields `null`. -/
def trackedPaths (context : ConversationContext) : List String :=
  let fromEditor :=
    match context.editor with
    | some e => [(normalizePath e.path).getD e.path]
    | none => []
  fromEditor ++ context.requestedFiles.map fun f => (normalizePath f.path).getD f.path

/-- `getBlockingDiagnostics` (part_011:1145-1162): the error-severity
diagnostics whose normalized path is tracked (or all error diagnostics
when no path is tracked). -/
def getBlockingDiagnostics (context : ConversationContext) : List DiagnosticEntry :=
  let tracked := trackedPaths context
  context.diagnostics.filter fun diag =>
    diag.severity = .error ∧
      (tracked = [] ∨ (normalizePath diag.path).getD diag.path ∈ tracked)

/-- `diagnosticsAllowResponse` (part_011:1140-1143). -/
def diagnosticsAllowResponse (context : ConversationContext) : Bool :=
  (getBlockingDiagnostics context).isEmpty

/-- One formatted line of the refusal listing (part_011:1176-1178). -/
def refusalLine (diag : DiagnosticEntry) : String :=
  let p := diag.path
  let line := diag.range.startLine + 1
  let col := diag.range.startCharacter + 1
  let msg := diag.message
  s!"- {p}:{line}:{col} — {msg}"

/-- `formatDiagnosticsRefusal` (part_011:1164-1187). -/
def formatDiagnosticsRefusal (context : ConversationContext) : String :=
  let blocking := getBlockingDiagnostics context
  if blocking = [] then "Workspace diagnostics are clean."
  else
    let header := ["I cannot proceed because the live workspace has blocking diagnostics:", ""]
    let body := (blocking.take 10).map refusalLine
    let overflow :=
      if blocking.length > 10 then
        let extra := blocking.length - 10
        [s!"- …and {extra} more issues."]
      else []
    let tail := ["", "Resolve these diagnostics, then resend your request."]
    String.intercalate "\n" (header ++ body ++ overflow ++ tail)

end ChatProvider

namespace ChatProvider

/-- Result of one conversational turn past the context-preparation stage. -/
inductive TurnOutcome where
  | committed (reply : String)
  | refusedDiagnostics (message : String)
  | failed (message : String)
  deriving Repr, DecidableEq

/-- The generation phase of `handleSendMessage` (part_011:574-650):
diagnostic gate, backend invocation (with the single output-shape retry),
pre-commit revision check, commit.  `backend` abstracts
`invokeOllama` (one call per application), `containsExplanation` abstracts
`responseContainsExplanation`, and `revisionBeforeCommit` is the value
`this.workspaceState.getRevision()` returns at part_011:638.  The second
component counts backend invocations. -/
def runGeneratePhase (context : ConversationContext)
    (backend : String → String) (containsExplanation : String → Bool)
    (isOutputRequest : Bool) (prompt retryPrompt : String)
    (revisionBeforeCommit : Nat) : TurnOutcome × Nat :=
  if !diagnosticsAllowResponse context then
    (.refusedDiagnostics (formatDiagnosticsRefusal context), 0)
  else
    let firstReply := jsTrim (backend prompt)
    let (assistantReply, calls) :=
      if isOutputRequest ∧ containsExplanation firstReply then
        (jsTrim (backend retryPrompt), 2)
      else (firstReply, 1)
    if revisionBeforeCommit ≠ context.revision then
      (.failed "Workspace changed while generating the response. Please resend your request to use the latest code.", calls)
    else
      let finalReply :=
        if assistantReply = "" then "I did not receive a response from the model."
        else assistantReply
      (.committed finalReply, calls)

/-- The revision skeleton of `collectStableConversationContext`
(part_011:1203-1235).  Each attempt performs two `getRevision` reads: one
at the start of `collectConversationContext` (part_011:780, stamped into
`context.revision`) and one after the build (part_011:1218); the attempt
succeeds when they agree.  `obs i` is the value returned by the `i`-th
`getRevision` call, `k` the index of the next call; the result carries
the stable revision and the next call index.  Context contents other than
the revision play no role in the staleness logic and are abstracted. -/
def collectStableRevLoop (obs : Nat → Nat) (k : Nat) :
    Nat → Except String (Nat × Nat)
  | 0 => .error "Workspace changed repeatedly while preparing context. Wait for edits to settle and resend your request."
  | attempts + 1 =>
    let revisionAtBuild := obs k
    let revisionAfterBuild := obs (k + 1)
    if revisionAfterBuild = revisionAtBuild then .ok (revisionAtBuild, k + 2)
    else collectStableRevLoop obs (k + 2) attempts

/-- `collectStableConversationContext` with its default attempt budget
(`MAX_CONTEXT_PREP_ATTEMPTS`, part_011:1199). -/
def collectStableRev (obs : Nat → Nat) (k : Nat) : Except String (Nat × Nat) :=
  collectStableRevLoop obs k MAX_CONTEXT_PREP_ATTEMPTS

/-- The outer preparation loop of `handleSendMessage` (part_011:501-537):
each attempt obtains a stable context, composes the prompt, re-reads the
revision (`postComposeRevision`, part_011:519) and accepts the prompt only
if the revision still matches; otherwise it retries, up to
`MAX_CONTEXT_PREP_ATTEMPTS`.  An inner-loop failure propagates (no catch
inside the loop).  Exhausting the attempts throws the settle-and-resend
error at part_011:534-536. -/
def prepareLoop (obs : Nat → Nat) (k : Nat) :
    Nat → Except String (Nat × Nat)
  | 0 => .error "Workspace changed while preparing context. Please pause edits momentarily and resend your request."
  | attempts + 1 =>
    match collectStableRev obs k with
    | .error e => .error e
    | .ok (rev, k') =>
      let postComposeRevision := obs k'
      if postComposeRevision = rev then .ok (rev, k' + 1)
      else prepareLoop obs (k' + 1) attempts

/-- The whole prompt-preparation stage of a turn, starting from the first
`getRevision` call.  `.ok (rev, k')` means a prompt whose assembly-time
revision is `rev` is handed on to the backend; `.error msg` means the turn
fails (the catch at part_011:554-560 posts `msg`) before `invokeOllama`
is ever reached. -/
def prepareStablePrompt (obs : Nat → Nat) : Except String (Nat × Nat) :=
  prepareLoop obs 0 MAX_CONTEXT_PREP_ATTEMPTS

end ChatProvider

namespace OllamaClient

/-- The fields of one newline-delimited stream chunk
(`OllamaStreamChunk`, part_006:85-90). -/
structure StreamChunkPayload where
  response : Option String := none
  delta : Option String := none
  done : Option Bool := none
  error : Option String := none
  deriving Repr, DecidableEq

/-- `processChunk` (part_006:478-502), parameterized by the JSON parser:
`parse` models `JSON.parse` on a trimmed nonempty line (`.error` models a
thrown `SyntaxError`).  The result carries the token passed to `onToken`
(if any) and the `done` flag. -/
def processChunk (parse : String → Except String StreamChunkPayload)
    (rawChunk : String) : Except String (Option String × Bool) :=
  let trimmed := jsTrim rawChunk
  if trimmed = "" then .ok (none, false)
  else
    match parse trimmed with
    | .error e => .error e
    | .ok payload =>
      let emit : Except String (Option String × Bool) :=
        let token := payload.response.orElse fun _ => payload.delta
        let emitted := token.bind fun t => if t ≠ "" then some t else none
        .ok (emitted, payload.done = some true)
      match payload.error with
      | some e => if e ≠ "" then .error e else emit
      | none => emit

/-- The observable state of one `streamCompletion` invocation
(part_006:275-476): the `settled` promise flag, the `ended` finish latch
(part_006:283-291), `doneEmitted`, the line-reassembly `buffer`, the
non-2xx `errorData` accumulator, and counters for the three callbacks. -/
structure StreamState where
  settled : Bool := false
  ended : Bool := false
  doneEmitted : Bool := false
  responseStatus : Option Nat := none
  buffer : String := ""
  errorData : String := ""
  onEndCount : Nat := 0
  onErrorCount : Nat := 0
  onTokenCount : Nat := 0
  deriving Repr, DecidableEq

/-- The `finish` latch (part_006:283-291): fire `onEnd` only once. -/
def finish (st : StreamState) : StreamState :=
  if st.ended then st
  else { st with ended := true, onEndCount := st.onEndCount + 1 }

/-- A `callbacks.onError(...)` call; the source never guards these. -/
def fireError (st : StreamState) : StreamState :=
  { st with onErrorCount := st.onErrorCount + 1 }

/-- `resolveOnce`/`rejectOnce` (part_006:345-361): settle the promise at
most once (timer/token cleanup has no observable effect here). -/
def settleOnce (st : StreamState) : StreamState :=
  if st.settled then st else { st with settled := true }

/-- `processSegment` (part_006:401-422).  On a chunk error the code fires
`onError`, `finish`es, destroys the request and rejects; the `error`
event that `request.destroy(err)` may surface later is delivered as a
separate `reqError` event. -/
def processSegment (parse : String → Except String StreamChunkPayload)
    (st : StreamState) (segment : String) : StreamState :=
  if st.settled then st
  else
    let trimmed := jsTrim segment
    if trimmed = "" then st
    else
      match processChunk parse trimmed with
      | .ok (token, isDone) =>
        let st :=
          match token with
          | some _ => { st with onTokenCount := st.onTokenCount + 1 }
          | none => st
        if isDone ∧ !st.doneEmitted then finish { st with doneEmitted := true }
        else st
      | .error _ => settleOnce (finish (fireError st))

/-- JS `string.split('\n')` on character lists (always nonempty result). -/
def splitNlL : List Char → List (List Char)
  | [] => [[]]
  | c :: rest =>
    let r := splitNlL rest
    if c = '\n' then [] :: r
    else
      match r with
      | [] => [[c]]
      | h :: t => (c :: h) :: t

/-- The network-layer events a `streamCompletion` invocation can observe.
`response status` delivers the HTTP response head; `respData`, `respEnd`
and `respError` are events of that response stream; `reqError` is an
`error` event on the request object (connection failure, the destroy
calls issued by the timeout timer and the cancellation listener at
part_006:457-463, or a destroy from the chunk-error path). -/
inductive NetEvent where
  | response (status : Nat)
  | respData (chunk : String)
  | respEnd
  | respError (message : String)
  | reqError (message : String)
  deriving Repr, DecidableEq

/-- One step of the `streamCompletion` event handlers (part_006:363-471).
Error-message composition (`finalize`, part_006:369-388) is not tracked —
only which callbacks fire.  Events for which no handler is installed
(response-stream events before the response head) are ignored. -/
def handleEvent (parse : String → Except String StreamChunkPayload)
    (st : StreamState) : NetEvent → StreamState
  | .response status =>
    match st.responseStatus with
    | some _ => st
    | none => { st with responseStatus := some status }
  | .respData chunk =>
    match st.responseStatus with
    | none => st
    | some status =>
      if status < 200 ∨ 300 ≤ status then
        { st with errorData := st.errorData ++ chunk }
      else if st.settled then st
      else
        let segments := (splitNlL (st.buffer ++ chunk).data).map String.mk
        let newBuffer := segments.getLast?.getD ""
        let st := { st with buffer := newBuffer }
        segments.dropLast.foldl (processSegment parse) st
  | .respEnd =>
    match st.responseStatus with
    | none => st
    | some status =>
      if status < 200 ∨ 300 ≤ status then
        settleOnce (finish (fireError st))
      else
        let st :=
          if !st.settled ∧ jsTrim st.buffer ≠ "" then processSegment parse st st.buffer
          else st
        let st := if !st.doneEmitted then finish st else st
        settleOnce st
  | .respError _ =>
    match st.responseStatus with
    | none => st
    | some _ => settleOnce (finish (fireError st))
  | .reqError _ => settleOnce (finish (fireError st))

/-- The observable outcome of one `streamCompletion` invocation on a
sequence of network events. -/
def runStream (parse : String → Except String StreamChunkPayload)
    (events : List NetEvent) : StreamState :=
  events.foldl (handleEvent parse) {}

end OllamaClient

/-! Concrete instances used by witnesses and counterexamples. -/

/-- A reader oracle under which every path resolves to an 11-character
code file. -/
def readDocEx : String → Option ContextBuilder.DocumentReadResult := fun p =>
  some { path := p, type := .code, text := "hello world", truncated := false, source := .disk }

/-- A request whose 5-character budget is smaller than the active file. -/
def inputBudgetEx : ContextBuilder.BuildContextInput :=
  { activeFile := some "a.ts", maxChars := some 5 }

/-- The bundle `buildContext` produces for `inputBudgetEx` under
`readDocEx`. -/
def bundleBudgetEx : ContextBuilder.BuildContextOutput :=
  { files := [{ path := "a.ts", type := .code, content := "hello", source := .disk }],
    totalChars := 5, truncated := true }

/-- A request naming a protected path and supplying no override. -/
def inputProtectedEx : ContextBuilder.BuildContextInput :=
  { activeFile := some "src/app.ts", protectedPaths := ["src/app.ts"] }

/-- A conversation context whose active file carries an error-severity
diagnostic. -/
def blockedContextEx : ChatProvider.ConversationContext :=
  { editor := some
      { path := "src/App.ts"
        languageId := "typescript"
        content := "let x: number = 1;"
        truncated := false
        version := 3
        capturedAt := 0 }
    diagnostics :=
      [{ path := "src/App.ts"
         message := "Type error"
         severity := .error
         range := { startLine := 0, startCharacter := 4, endLine := 0, endCharacter := 5 } }]
    revision := 7 }

/-- A chunk parser recognizing two well-formed lines: `TOK` (a token
chunk) and `DONE` (a done chunk); anything else is malformed JSON. -/
def parseEx : String → Except String OllamaClient.StreamChunkPayload := fun s =>
  if s = "DONE" then .ok { done := some true }
  else if s = "TOK" then .ok { response := some "hello" }
  else .error "Unexpected token in JSON"

/-- A legitimate network interleaving: a 2xx response delivers a token
line and the done line, then the response stream errors (e.g. a
connection reset) before its `end` event. -/
def doubleTerminalEventsEx : List OllamaClient.NetEvent :=
  [.response 200, .respData "TOK\nDONE\n", .respError "read ECONNRESET"]

/-- A session holding 11 messages, the oldest with distinctive content. -/
def overfullSessionEx : ChatProvider.ChatSession :=
  { id := "session-0", title := "Chat",
    messages := { role := .user, content := "oldest-entry", timestamp := 0 } ::
      ((List.range 10).map fun i => { role := .assistant, content := "later", timestamp := i + 1 }),
    workspaceContext := [] }

/-- A file system on which every path stats as an existing regular file
and every format reader succeeds. -/
def fsAllFilesEx : Reader.FsModel :=
  { stat := fun _ => some { isFile := true },
    readText := fun _ rp t =>
      some { path := rp, type := t, text := "x", truncated := false, source := .disk },
    readPdf := fun _ rp =>
      some { path := rp, type := .pdf, text := "x", truncated := false, source := .disk },
    readDocx := fun _ rp =>
      some { path := rp, type := .docx, text := "x", truncated := false, source := .disk } }

/-! Character-level helper lemmas. -/

theorem char_toNat_ofNat (n : Nat) (h : n < 55296) : (Char.ofNat n).toNat = n := by
  simp [Char.ofNat, Nat.isValidChar, h, Char.ofNatAux, Char.toNat, UInt32.toNat]

theorem char_eq_iff_toNat (a b : Char) : a = b ↔ a.toNat = b.toNat := by
  constructor
  · rintro rfl; rfl
  · intro h
    exact Char.eq_of_val_eq (UInt32.ext h)

theorem toNat_lowerChar (c : Char) :
    (lowerChar c).toNat = if 65 ≤ c.toNat ∧ c.toNat ≤ 90 then c.toNat + 32 else c.toNat := by
  unfold lowerChar
  split
  · next h => exact char_toNat_ofNat _ (by omega)
  · rfl

theorem lowerChar_idem (c : Char) : lowerChar (lowerChar c) = lowerChar c := by
  rw [char_eq_iff_toNat, toNat_lowerChar, toNat_lowerChar]
  split_ifs <;> omega

theorem isWsChar_true_iff (d : Char) :
    isWsChar d = true ↔ (d.toNat = 32 ∨ d.toNat = 9 ∨ d.toNat = 10 ∨ d.toNat = 13) := by
  simp [isWsChar, char_eq_iff_toNat]
  tauto

theorem isWsChar_lowerChar (c : Char) : isWsChar (lowerChar c) = isWsChar c := by
  by_cases h : isWsChar c = true
  · have h' := (isWsChar_true_iff c).mp h
    have hfix : lowerChar c = c := by
      rw [char_eq_iff_toNat, toNat_lowerChar]
      split <;> omega
    rw [hfix]
  · have h' : ¬ (c.toNat = 32 ∨ c.toNat = 9 ∨ c.toNat = 10 ∨ c.toNat = 13) :=
      fun hc => h ((isWsChar_true_iff c).mpr hc)
    have hlc : ¬ ((lowerChar c).toNat = 32 ∨ (lowerChar c).toNat = 9 ∨
        (lowerChar c).toNat = 10 ∨ (lowerChar c).toNat = 13) := by
      rw [toNat_lowerChar]
      split <;> omega
    simp only [Bool.not_eq_true] at h ⊢
    cases hb : isWsChar (lowerChar c)
    · rw [h]
    · exact absurd ((isWsChar_true_iff _).mp hb) hlc

theorem slashChar_ne_backslash (c : Char) : slashChar c ≠ '\\' := by
  unfold slashChar
  split
  · decide
  · assumption

theorem lowerChar_ne_backslash (c : Char) (h : c ≠ '\\') : lowerChar c ≠ '\\' := by
  simp only [Ne, char_eq_iff_toNat] at h ⊢
  rw [toNat_lowerChar]
  have hb : ('\\' : Char).toNat = 92 := rfl
  rw [hb] at h ⊢
  split <;> omega

/-! List-level helper lemmas for the JS string model. -/

theorem head?_dropWhile_not (p : α → Bool) (l : List α) (a : α)
    (h : (l.dropWhile p).head? = some a) : p a = false := by
  induction l with
  | nil => simp [List.dropWhile] at h
  | cons x xs ih =>
    rw [List.dropWhile_cons] at h
    split at h
    · exact ih h
    · next hx =>
      simp at h
      subst h
      simpa using hx

theorem getLast?_dropWhile (p : α → Bool) (l : List α)
    (h : l.dropWhile p ≠ []) : (l.dropWhile p).getLast? = l.getLast? := by
  induction l with
  | nil => simp at h
  | cons x xs ih =>
    rw [List.dropWhile_cons]
    split
    · next hx =>
      rw [List.dropWhile_cons, if_pos (by simpa using hx)] at h
      rw [ih h]
      have hxs : xs ≠ [] := by
        intro he; subst he; simp [List.dropWhile] at h
      cases xs with
      | nil => simp at hxs
      | cons y ys => simp [List.getLast?_cons_cons]
    · rfl

theorem dropWhile_eq_self_of_head (p : α → Bool) (l : List α)
    (h : ∀ a, l.head? = some a → p a = false) : l.dropWhile p = l := by
  cases l with
  | nil => rfl
  | cons x xs =>
    rw [List.dropWhile_cons, if_neg]
    simp [h x rfl]

theorem trimL_eq_self (l : List Char)
    (h1 : ∀ a, l.head? = some a → isWsChar a = false)
    (h2 : ∀ a, l.getLast? = some a → isWsChar a = false) :
    trimL l = l := by
  unfold trimL
  rw [dropWhile_eq_self_of_head _ _ h1]
  rw [dropWhile_eq_self_of_head _ _ (fun a ha => h2 a (by rwa [List.head?_reverse] at ha))]
  exact List.reverse_reverse l

theorem trimL_getLast (l : List Char) (a : Char)
    (h : (trimL l).getLast? = some a) : isWsChar a = false := by
  unfold trimL at h
  rw [List.getLast?_reverse] at h
  exact head?_dropWhile_not _ _ _ h

theorem trimL_head (l : List Char) (a : Char)
    (h : (trimL l).head? = some a) : isWsChar a = false := by
  unfold trimL at h
  rw [List.head?_reverse] at h
  have hz : (l.dropWhile isWsChar).reverse.dropWhile isWsChar ≠ [] := by
    intro he
    rw [he] at h
    simp at h
  rw [getLast?_dropWhile _ _ hz, List.getLast?_reverse] at h
  exact head?_dropWhile_not _ _ _ h

theorem trimL_idem (l : List Char) : trimL (trimL l) = trimL l :=
  trimL_eq_self _ (trimL_head l) (trimL_getLast l)

theorem trimL_lowerL (l : List Char) : trimL (lowerL l) = lowerL (trimL l) := by
  have hw : isWsChar ∘ lowerChar = isWsChar := funext isWsChar_lowerChar
  unfold trimL lowerL
  rw [List.dropWhile_map, hw, ← List.map_reverse, List.dropWhile_map, hw, ← List.map_reverse]

theorem lowerL_idem (l : List Char) : lowerL (lowerL l) = lowerL l := by
  unfold lowerL
  rw [List.map_map]
  have h : lowerChar ∘ lowerChar = lowerChar := funext lowerChar_idem
  rw [h]

theorem slashifyL_eq_self (l : List Char) (h : ∀ c ∈ l, c ≠ '\\') :
    slashifyL l = l := by
  induction l with
  | nil => rfl
  | cons x xs ih =>
    unfold slashifyL at ih ⊢
    rw [List.map_cons, ih (fun c hc => h c (List.mem_cons_of_mem x hc))]
    have hx : x ≠ '\\' := h x (List.mem_cons_self x xs)
    unfold slashChar
    rw [if_neg hx]

theorem mem_slashifyL_ne_backslash (l : List Char) (c : Char)
    (h : c ∈ slashifyL l) : c ≠ '\\' := by
  obtain ⟨a, _, rfl⟩ := List.mem_map.mp h
  exact slashChar_ne_backslash a

theorem mem_trimL (l : List Char) (c : Char) (h : c ∈ trimL l) : c ∈ l := by
  unfold trimL at h
  rw [List.mem_reverse] at h
  have h2 := (List.dropWhile_sublist (l := (l.dropWhile isWsChar).reverse) isWsChar).subset h
  rw [List.mem_reverse] at h2
  exact (List.dropWhile_sublist isWsChar).subset h2

theorem mem_stripDotSlashL (l : List Char) (c : Char)
    (h : c ∈ stripDotSlashL l) : c ∈ l := by
  unfold stripDotSlashL at h
  split at h
  · exact List.drop_subset 2 l h
  · split at h
    · exact List.drop_subset 1 l h
    · exact h

theorem mem_stripLiteralDotQmSlashL (l : List Char) (c : Char)
    (h : c ∈ stripLiteralDotQmSlashL l) : c ∈ l := by
  unfold stripLiteralDotQmSlashL at h
  split at h
  · exact List.drop_subset 3 l h
  · exact h

/-- Generic idempotence-on-stable-inputs for a JS-style normalizer
`lower ∘ trim ∘ strip ∘ slashify`, for any prefix-stripping step that
removes characters only. -/
theorem normL_idem_of_strip (strip : List Char → List Char)
    (hmem : ∀ (l : List Char) (c : Char), c ∈ strip l → c ∈ l)
    (l : List Char)
    (h : strip (lowerL (trimL (strip (slashifyL l)))) = lowerL (trimL (strip (slashifyL l)))) :
    lowerL (trimL (strip (slashifyL (lowerL (trimL (strip (slashifyL l)))))))
      = lowerL (trimL (strip (slashifyL l))) := by
  have hnb : ∀ c ∈ lowerL (trimL (strip (slashifyL l))), c ≠ '\\' := by
    intro c hc
    obtain ⟨a, ha, rfl⟩ := List.mem_map.mp hc
    exact lowerChar_ne_backslash a
      (mem_slashifyL_ne_backslash _ _ (hmem _ _ (mem_trimL _ _ ha)))
  rw [slashifyL_eq_self _ hnb, h, trimL_lowerL, trimL_idem, lowerL_idem]

/-! Claim theorems. -/

theorem revisionAfter_foldl (l : List LiveWorkspace.WorkspaceEvent) (init : Nat) :
    l.foldl LiveWorkspace.step init = init + l.length := by
  induction l generalizing init with
  | nil => simp
  | cons x xs ih =>
    rw [List.foldl_cons, ih]
    simp [LiveWorkspace.step]
    omega

/-- C6: over any sequence of observed workspace mutation events the
revision counter equals the number of events (so it is never decremented
or reset), each single event increments it by exactly one, and the value
is non-decreasing as events accumulate. -/
theorem revision_monotonic_unit_increments :
    (∀ (events : List LiveWorkspace.WorkspaceEvent) (e : LiveWorkspace.WorkspaceEvent),
        LiveWorkspace.revisionAfter (events ++ [e]) = LiveWorkspace.revisionAfter events + 1) ∧
    (∀ (events more : List LiveWorkspace.WorkspaceEvent),
        LiveWorkspace.revisionAfter events ≤ LiveWorkspace.revisionAfter (events ++ more)) ∧
    (∀ events : List LiveWorkspace.WorkspaceEvent,
        LiveWorkspace.revisionAfter events = events.length) := by
  refine ⟨?_, ?_, ?_⟩
  · intro events e
    unfold LiveWorkspace.revisionAfter
    rw [revisionAfter_foldl, revisionAfter_foldl]
    simp
  · intro events more
    unfold LiveWorkspace.revisionAfter
    rw [revisionAfter_foldl, revisionAfter_foldl]
    simp
  · intro events
    unfold LiveWorkspace.revisionAfter
    rw [revisionAfter_foldl]
    omega

/-- C8: the context builder's `normalizePath` does NOT strip a leading
`./` (its regex `/^\.\?\//` escapes the `?`, so only the literal prefix
`.?/` is stripped), whereas the reader's `normalizeRelativePath` does, as
the spec describes.  Hence `normalize('./' + p) ≠ normalize(p)` for the
context builder. -/
theorem contextBuilder_normalizePath_keeps_dot_slash :
    ContextBuilder.normalizePath "./sum.c" = "./sum.c" ∧
    ContextBuilder.normalizePath "sum.c" = "sum.c" ∧
    ContextBuilder.normalizePath ".?/sum.c" = "sum.c" ∧
    Reader.normalizeRelativePath "./sum.c" = "sum.c" := by decide

/-- C7 counterexample: both normalizers strip at most one prefix per
application and trim after stripping, so a second application can strip
again: `.//x` normalizes to `/x` and then to `x` under the chat
provider's normalizer, and `.?/.?/x` normalizes to `.?/x` and then to
`x` under the context builder's. -/
theorem normalize_idempotence_cex :
    ChatProvider.normalizeCore (ChatProvider.normalizeCore ".//x") ≠
      ChatProvider.normalizeCore ".//x" ∧
    ContextBuilder.normalizePath (ContextBuilder.normalizePath ".?/.?/x") ≠
      ContextBuilder.normalizePath ".?/.?/x" := by decide

/-- C7 (amended): each normalizer is idempotent exactly on the inputs
whose normal form is not itself shortened by the prefix-stripping step
(a leading `/` or `./` for the chat provider's normalizer, the literal
`.?/` for the context builder's). -/
theorem normalize_idempotent_on_stable (p : String) :
    (stripDotSlashL (ChatProvider.normalizeCore p).data = (ChatProvider.normalizeCore p).data →
      ChatProvider.normalizeCore (ChatProvider.normalizeCore p) = ChatProvider.normalizeCore p) ∧
    (stripLiteralDotQmSlashL (ContextBuilder.normalizePath p).data =
        (ContextBuilder.normalizePath p).data →
      ContextBuilder.normalizePath (ContextBuilder.normalizePath p) =
        ContextBuilder.normalizePath p) := by
  constructor
  · intro h
    exact congrArg String.mk (normL_idem_of_strip stripDotSlashL mem_stripDotSlashL p.data h)
  · intro h
    exact congrArg String.mk
      (normL_idem_of_strip stripLiteralDotQmSlashL mem_stripLiteralDotQmSlashL p.data h)

/-- Witness for the amended C7 theorem at the concrete path
`src/App.ts`. -/
theorem normalize_idempotent_on_stable_witness :
    (stripDotSlashL (ChatProvider.normalizeCore "src/App.ts").data =
        (ChatProvider.normalizeCore "src/App.ts").data ∧
      ChatProvider.normalizeCore (ChatProvider.normalizeCore "src/App.ts") =
        ChatProvider.normalizeCore "src/App.ts") ∧
    (stripLiteralDotQmSlashL (ContextBuilder.normalizePath "src/App.ts").data =
        (ContextBuilder.normalizePath "src/App.ts").data ∧
      ContextBuilder.normalizePath (ContextBuilder.normalizePath "src/App.ts") =
        ContextBuilder.normalizePath "src/App.ts") :=
  ⟨⟨by decide, (normalize_idempotent_on_stable "src/App.ts").1 (by decide)⟩,
   ⟨by decide, (normalize_idempotent_on_stable "src/App.ts").2 (by decide)⟩⟩

/-- C9 counterexample: a session with 11 messages is pruned to its last
10 messages; the oldest message is dropped outright and its content
appears nowhere in the pruned history — no summary is produced. -/
theorem pruneContext_drops_oldest_cex :
    overfullSessionEx.messages.length = 11 ∧
    (overfullSessionEx.messages.head?.map fun m => m.content) = some "oldest-entry" ∧
    (ChatProvider.pruneContext overfullSessionEx).messages.length = 10 ∧
    ((ChatProvider.pruneContext overfullSessionEx).messages.all
        fun m => m.content != "oldest-entry") = true := by decide

/-- C9 (amended): once the cap is exceeded, `pruneContext` keeps exactly
the most recent `MAX_HISTORY` messages (and the most recent
`MAX_PERSISTED_WORKSPACE_CONTEXT` workspace-context blocks) and drops the
older prefix entirely; nothing is summarized. -/
theorem pruneContext_keeps_last_window (session : ChatProvider.ChatSession) :
    ∃ droppedMessages droppedContext,
      session.messages =
        droppedMessages ++ (ChatProvider.pruneContext session).messages ∧
      (ChatProvider.pruneContext session).messages.length =
        min session.messages.length ChatProvider.MAX_HISTORY ∧
      session.workspaceContext =
        droppedContext ++ (ChatProvider.pruneContext session).workspaceContext ∧
      (ChatProvider.pruneContext session).workspaceContext.length =
        min session.workspaceContext.length ChatProvider.MAX_PERSISTED_WORKSPACE_CONTEXT := by
  refine ⟨session.messages.take (session.messages.length - ChatProvider.MAX_HISTORY),
          session.workspaceContext.take
            (session.workspaceContext.length - ChatProvider.MAX_PERSISTED_WORKSPACE_CONTEXT),
          ?_, ?_, ?_, ?_⟩ <;>
    unfold ChatProvider.pruneContext ChatProvider.sliceLast <;>
    by_cases h1 : session.messages.length > ChatProvider.MAX_HISTORY <;>
    by_cases h2 : session.workspaceContext.length >
      ChatProvider.MAX_PERSISTED_WORKSPACE_CONTEXT <;>
    simp [h1, h2, List.take_append_drop, List.length_drop] <;>
    omega

/-- C10: `readDocument` returns `NotFound` (`null`) whenever the
lowercased extension of the resolved path is outside
`{.ts, .js, .json, .md, .txt, .pdf, .docx}`, regardless of what the file
system contains — e.g. an existing `.c` file is never read. -/
theorem readDocument_rejects_unknown_extensions (m : Reader.FsModel)
    (rootDir relativePath : String)
    (h : String.mk (lowerL
        (Reader.extname (Reader.pathJoin rootDir
          (Reader.normalizeRelativePath relativePath))).data) ∉
      Reader.allowedExtensions) :
    Reader.readDocument m rootDir relativePath = none := by
  set ext := String.mk (lowerL
      (Reader.extname (Reader.pathJoin rootDir
        (Reader.normalizeRelativePath relativePath))).data) with hext
  have h1 : ext ≠ ".ts" := fun he => h (by rw [he]; decide)
  have h2 : ext ≠ ".js" := fun he => h (by rw [he]; decide)
  have h3 : ext ≠ ".json" := fun he => h (by rw [he]; decide)
  have h4 : ext ≠ ".md" := fun he => h (by rw [he]; decide)
  have h5 : ext ≠ ".txt" := fun he => h (by rw [he]; decide)
  have h6 : ext ≠ ".pdf" := fun he => h (by rw [he]; decide)
  have h7 : ext ≠ ".docx" := fun he => h (by rw [he]; decide)
  unfold Reader.readDocument
  by_cases hn : Reader.normalizeRelativePath relativePath = ""
  · simp [hn]
  · rw [if_neg hn]
    cases hstat : m.stat (Reader.pathJoin rootDir (Reader.normalizeRelativePath relativePath)) with
    | none => simp [hstat]
    | some stat =>
      by_cases hf : stat.isFile
      · simp only [hstat, hf, Bool.not_true, Bool.false_eq_true, if_false,
          Reader.TEXT_EXTENSION_MAP, List.find?_cons, List.find?_nil, ← hext]
        simp [Ne.symm h1, Ne.symm h2, Ne.symm h3, Ne.symm h4, Ne.symm h5, h6, h7]
      · simp [hstat, hf]

/-- Witness for C10: under a file system on which every path exists as a
regular file, `src/main.c` is still rejected. -/
theorem readDocument_rejects_unknown_extensions_witness :
    String.mk (lowerL
        (Reader.extname (Reader.pathJoin "/root" (Reader.normalizeRelativePath "src/main.c"))).data) ∉
      Reader.allowedExtensions ∧
    Reader.readDocument fsAllFilesEx "/root" "src/main.c" = none :=
  ⟨by decide, readDocument_rejects_unknown_extensions fsAllFilesEx "/root" "src/main.c" (by decide)⟩

/-- C3: when the stabilized context carries an error-severity diagnostic
on a tracked path (the active editor file or any requested file), the
generation phase refuses the turn with the formatted diagnostics listing
and the backend is invoked zero times. -/
theorem diagnostic_gate_blocks_generation
    (context : ChatProvider.ConversationContext)
    (backend : String → String) (containsExplanation : String → Bool)
    (isOutputRequest : Bool) (prompt retryPrompt : String)
    (revisionBeforeCommit : Nat) (d : ChatProvider.DiagnosticEntry)
    (hmem : d ∈ context.diagnostics)
    (hsev : d.severity = .error)
    (htracked : (ChatProvider.normalizePath d.path).getD d.path ∈
      ChatProvider.trackedPaths context) :
    ChatProvider.runGeneratePhase context backend containsExplanation
        isOutputRequest prompt retryPrompt revisionBeforeCommit =
      (.refusedDiagnostics (ChatProvider.formatDiagnosticsRefusal context), 0) ∧
    ChatProvider.getBlockingDiagnostics context ≠ [] := by
  have hblock : d ∈ ChatProvider.getBlockingDiagnostics context := by
    unfold ChatProvider.getBlockingDiagnostics
    rw [List.mem_filter]
    refine ⟨hmem, ?_⟩
    simp [hsev, htracked]
  have hne : ChatProvider.getBlockingDiagnostics context ≠ [] := by
    intro he
    rw [he] at hblock
    exact absurd hblock (List.not_mem_nil d)
  refine ⟨?_, hne⟩
  unfold ChatProvider.runGeneratePhase
  have hallow : ChatProvider.diagnosticsAllowResponse context = false := by
    unfold ChatProvider.diagnosticsAllowResponse
    rwa [List.isEmpty_eq_false]
  rw [hallow]
  rfl

/-- Witness for C3: a concrete context whose active file has a type
error refuses the turn and never calls the backend. -/
theorem diagnostic_gate_blocks_generation_witness :
    ChatProvider.runGeneratePhase blockedContextEx (fun _ => "reply")
        (fun _ => false) false "prompt" "retry" 7 =
      (.refusedDiagnostics (ChatProvider.formatDiagnosticsRefusal blockedContextEx), 0) ∧
    ChatProvider.getBlockingDiagnostics blockedContextEx ≠ [] :=
  diagnostic_gate_blocks_generation blockedContextEx (fun _ => "reply")
    (fun _ => false) false "prompt" "retry" 7
    { path := "src/App.ts", message := "Type error", severity := .error,
      range := { startLine := 0, startCharacter := 4, endLine := 0, endCharacter := 5 } }
    (by decide) (by decide) (by decide)

theorem collectStableRevLoop_persistent_drift (obs : Nat → Nat)
    (hdrift : ∀ k, obs (k + 1) ≠ obs k) (attempts k : Nat) :
    ChatProvider.collectStableRevLoop obs k attempts =
      .error "Workspace changed repeatedly while preparing context. Wait for edits to settle and resend your request." := by
  induction attempts generalizing k with
  | zero => rfl
  | succ a ih =>
    unfold ChatProvider.collectStableRevLoop
    rw [if_neg (hdrift k)]
    exact ih (k + 2)

/-- C4: the staleness retry is bounded by `MAX_CONTEXT_PREP_ATTEMPTS = 3`
at both retry levels; when every revision check observes a drift the turn
fails with the settle-and-resend message before any backend call, and a
successfully prepared prompt's assembly-time revision always equals the
revision observed by the final pre-send check. -/
theorem staleness_retry_bounded_and_consistent :
    (∀ obs : Nat → Nat, (∀ k, obs (k + 1) ≠ obs k) →
        ChatProvider.prepareStablePrompt obs =
          .error "Workspace changed repeatedly while preparing context. Wait for edits to settle and resend your request.") ∧
    (∀ (obs : Nat → Nat) (k attempts rev next : Nat),
        ChatProvider.prepareLoop obs k attempts = .ok (rev, next) →
        1 ≤ next ∧ obs (next - 1) = rev) ∧
    (ChatProvider.prepareStablePrompt (fun k => (k + 1) / 3) =
      .error "Workspace changed while preparing context. Please pause edits momentarily and resend your request.") := by
  refine ⟨?_, ?_, by rfl⟩
  · intro obs hdrift
    unfold ChatProvider.prepareStablePrompt
    have h3 : ChatProvider.MAX_CONTEXT_PREP_ATTEMPTS = 2 + 1 := rfl
    rw [h3]
    unfold ChatProvider.prepareLoop
    rw [ChatProvider.collectStableRev, h3,
      collectStableRevLoop_persistent_drift obs hdrift]
  · intro obs k attempts rev next h
    induction attempts generalizing k with
    | zero => exact absurd h (by simp [ChatProvider.prepareLoop])
    | succ a ih =>
      unfold ChatProvider.prepareLoop at h
      cases hc : ChatProvider.collectStableRev obs k with
      | error e => rw [hc] at h; exact absurd h (by simp)
      | ok pair =>
        obtain ⟨r0, k0⟩ := pair
        rw [hc] at h
        dsimp only at h
        by_cases hpost : obs k0 = r0
        · rw [if_pos hpost] at h
          obtain ⟨rfl, rfl⟩ : rev = r0 ∧ next = k0 + 1 := by
            cases h
            exact ⟨rfl, rfl⟩
          exact ⟨by omega, by simpa using hpost⟩
        · rw [if_neg hpost] at h
          exact ih (k0 + 1) h

/-- Witness for C4: with a strictly changing revision stream the turn
fails with the settle message; with a constant stream the prepared
prompt's revision matches the final observation. -/
theorem staleness_retry_bounded_and_consistent_witness :
    ChatProvider.prepareStablePrompt (fun k => k) =
      .error "Workspace changed repeatedly while preparing context. Wait for edits to settle and resend your request." ∧
    (1 ≤ 3 ∧ (fun (_ : Nat) => 7) (3 - 1) = 7) :=
  ⟨staleness_retry_bounded_and_consistent.1 (fun k => k)
      (fun k => Nat.succ_ne_self k),
    staleness_retry_bounded_and_consistent.2.1 (fun _ => 7) 0
      ChatProvider.MAX_CONTEXT_PREP_ATTEMPTS 7 3 (by rfl)⟩

theorem endInv_finish (st : OllamaClient.StreamState)
    (h : st.onEndCount = if st.ended then 1 else 0) :
    (OllamaClient.finish st).onEndCount =
      if (OllamaClient.finish st).ended then 1 else 0 := by
  unfold OllamaClient.finish
  split
  · next he => simpa [he] using h
  · next hne =>
    simp only [Bool.not_eq_true] at hne
    simp [hne] at h
    simp [h]

theorem endInv_fireError (st : OllamaClient.StreamState)
    (h : st.onEndCount = if st.ended then 1 else 0) :
    (OllamaClient.fireError st).onEndCount =
      if (OllamaClient.fireError st).ended then 1 else 0 := by
  simpa [OllamaClient.fireError] using h

theorem endInv_settleOnce (st : OllamaClient.StreamState)
    (h : st.onEndCount = if st.ended then 1 else 0) :
    (OllamaClient.settleOnce st).onEndCount =
      if (OllamaClient.settleOnce st).ended then 1 else 0 := by
  unfold OllamaClient.settleOnce
  split
  · exact h
  · simpa using h

theorem endInv_processSegment (parse : String → Except String OllamaClient.StreamChunkPayload)
    (st : OllamaClient.StreamState) (segment : String)
    (h : st.onEndCount = if st.ended then 1 else 0) :
    (OllamaClient.processSegment parse st segment).onEndCount =
      if (OllamaClient.processSegment parse st segment).ended then 1 else 0 := by
  unfold OllamaClient.processSegment
  dsimp only
  by_cases hs : st.settled = true
  · rw [if_pos hs]
    exact h
  · rw [if_neg hs]
    by_cases ht : jsTrim segment = ""
    · rw [if_pos ht]
      exact h
    · rw [if_neg ht]
      cases hp : OllamaClient.processChunk parse (jsTrim segment) with
      | error e =>
        exact endInv_settleOnce _ (endInv_finish _ (endInv_fireError _ h))
      | ok pr =>
        obtain ⟨token, isDone⟩ := pr
        dsimp only
        cases token with
        | none =>
          by_cases hd : (isDone = true ∧ (!st.doneEmitted) = true)
          · rw [if_pos hd]
            apply endInv_finish
            simpa using h
          · rw [if_neg hd]
            exact h
        | some t =>
          by_cases hd : (isDone = true ∧ (!st.doneEmitted) = true)
          · rw [if_pos hd]
            apply endInv_finish
            simpa using h
          · rw [if_neg hd]
            simpa using h

theorem endInv_foldl_processSegment
    (parse : String → Except String OllamaClient.StreamChunkPayload)
    (segs : List String) (st : OllamaClient.StreamState)
    (h : st.onEndCount = if st.ended then 1 else 0) :
    (segs.foldl (OllamaClient.processSegment parse) st).onEndCount =
      if (segs.foldl (OllamaClient.processSegment parse) st).ended then 1 else 0 := by
  induction segs generalizing st with
  | nil => exact h
  | cons x xs ih =>
    rw [List.foldl_cons]
    exact ih _ (endInv_processSegment parse st x h)

theorem endInv_finishIfNotDone (st : OllamaClient.StreamState)
    (h : st.onEndCount = if st.ended then 1 else 0) :
    (if (!st.doneEmitted) = true then OllamaClient.finish st else st).onEndCount =
      if (if (!st.doneEmitted) = true then OllamaClient.finish st else st).ended
      then 1 else 0 := by
  split
  · exact endInv_finish _ h
  · exact h

theorem endInv_handleEvent (parse : String → Except String OllamaClient.StreamChunkPayload)
    (st : OllamaClient.StreamState) (e : OllamaClient.NetEvent)
    (h : st.onEndCount = if st.ended then 1 else 0) :
    (OllamaClient.handleEvent parse st e).onEndCount =
      if (OllamaClient.handleEvent parse st e).ended then 1 else 0 := by
  unfold OllamaClient.handleEvent
  cases e with
  | response status =>
    cases st.responseStatus <;> simpa using h
  | respData chunk =>
    cases hrs : st.responseStatus with
    | none => simpa using h
    | some status =>
      dsimp only
      by_cases hcode : (status < 200 ∨ 300 ≤ status)
      · rw [if_pos hcode]
        simpa using h
      · rw [if_neg hcode]
        by_cases hs : st.settled = true
        · rw [if_pos hs]
          exact h
        · rw [if_neg hs]
          exact endInv_foldl_processSegment parse _ _ (by simpa using h)
  | respEnd =>
    cases hrs : st.responseStatus with
    | none => simpa using h
    | some status =>
      dsimp only
      by_cases hcode : (status < 200 ∨ 300 ≤ status)
      · rw [if_pos hcode]
        exact endInv_settleOnce _ (endInv_finish _ (endInv_fireError _ h))
      · rw [if_neg hcode]
        apply endInv_settleOnce
        apply endInv_finishIfNotDone
        split
        · exact endInv_processSegment parse st st.buffer h
        · exact h
  | respError msg =>
    cases hrs : st.responseStatus with
    | none => simpa using h
    | some status => exact endInv_settleOnce _ (endInv_finish _ (endInv_fireError _ h))
  | reqError msg => exact endInv_settleOnce _ (endInv_finish _ (endInv_fireError _ h))

/-- C5 (amended): the `finish` latch is correct for `onEnd` — over every
JSON parser and every sequence of network events, `onEnd` fires at most
once per `streamCompletion` invocation.  (`onError` is not latched; see
the counterexample.) -/
theorem streamCompletion_onEnd_at_most_once
    (parse : String → Except String OllamaClient.StreamChunkPayload)
    (events : List OllamaClient.NetEvent) :
    (OllamaClient.runStream parse events).onEndCount ≤ 1 := by
  have h : (OllamaClient.runStream parse events).onEndCount =
      if (OllamaClient.runStream parse events).ended then 1 else 0 := by
    unfold OllamaClient.runStream
    generalize hinit : ({} : OllamaClient.StreamState) = st₀
    have h0 : st₀.onEndCount = if st₀.ended then 1 else 0 := by
      subst hinit; rfl
    clear hinit
    induction events generalizing st₀ with
    | nil => exact h0
    | cons e es ih =>
      rw [List.foldl_cons]
      exact ih _ (endInv_handleEvent parse st₀ e h0)
  rw [h]
  split <;> omega

/-- C5 counterexample: a 2xx response delivering a token line and the
done line fires `onEnd`, then a response-stream error event (such as a
mid-stream connection reset before `end`) additionally fires `onError` —
two terminal callbacks for one invocation, so "exactly one terminal
callback fires" is violated. -/
theorem streamCompletion_two_terminal_callbacks_cex :
    (OllamaClient.runStream parseEx doubleTerminalEventsEx).onEndCount = 1 ∧
    (OllamaClient.runStream parseEx doubleTerminalEventsEx).onErrorCount = 1 ∧
    (OllamaClient.runStream parseEx doubleTerminalEventsEx).onEndCount +
      (OllamaClient.runStream parseEx doubleTerminalEventsEx).onErrorCount ≠ 1 := by
  decide

theorem tryAddFile_budget_inv (readDoc : String → Option ContextBuilder.DocumentReadResult)
    (ov : List (String × ContextBuilder.DocumentOverride)) (prot : List String)
    (maxChars : Nat) (st : ContextBuilder.BuildState) (rp : Option String)
    (st' : ContextBuilder.BuildState)
    (hok : ContextBuilder.tryAddFile readDoc ov prot maxChars st rp = .ok st')
    (h1 : st.usedChars = ContextBuilder.sumContentLengths st.files)
    (h2 : st.usedChars ≤ maxChars) :
    st'.usedChars = ContextBuilder.sumContentLengths st'.files ∧
      st'.usedChars ≤ maxChars := by
  cases rp with
  | none =>
    cases hok
    exact ⟨h1, h2⟩
  | some p =>
    simp only [ContextBuilder.tryAddFile] at hok
    by_cases hp : p = ""
    · rw [if_pos hp] at hok
      cases hok
      exact ⟨h1, h2⟩
    · rw [if_neg hp] at hok
      by_cases hn : ContextBuilder.normalizePath p = "" ∨
          ContextBuilder.normalizePath p ∈ st.seen
      · rw [if_pos hn] at hok
        cases hok
        exact ⟨h1, h2⟩
      · rw [if_neg hn] at hok
        by_cases hprot : ContextBuilder.normalizePath p ∈ prot ∧
            ContextBuilder.overrideLookup ov (ContextBuilder.normalizePath p) = none
        · rw [if_pos hprot] at hok
          exact absurd hok (by simp)
        · rw [if_neg hprot] at hok
          cases hdoc : ContextBuilder.resolveDocument readDoc
              (ContextBuilder.normalizePath p) ov with
          | none =>
            rw [hdoc] at hok
            by_cases hp2 : ContextBuilder.normalizePath p ∈ prot
            · rw [if_pos hp2] at hok
              exact absurd hok (by simp)
            · rw [if_neg hp2] at hok
              cases hok
              exact ⟨h1, h2⟩
          | some document =>
            rw [hdoc] at hok
            dsimp only at hok
            by_cases hrem : (maxChars : Int) - (st.usedChars : Int) ≤ 0
            · rw [if_pos hrem] at hok
              cases hok
              exact ⟨h1, h2⟩
            · rw [if_neg hrem] at hok
              cases hok
              have hmk : ∀ l : List Char, (String.mk l).length = l.length := fun _ => rfl
              by_cases hlong : (document.text.length : Int) >
                  (maxChars : Int) - (st.usedChars : Int)
              · rw [if_pos hlong]
                constructor
                · simp [ContextBuilder.sumContentLengths, h1]
                · have htake : (String.mk (document.text.data.take
                      ((maxChars : Int) - (st.usedChars : Int)).toNat)).length =
                      min ((maxChars : Int) - (st.usedChars : Int)).toNat
                        document.text.data.length := by
                    rw [hmk, List.length_take]
                  simp only [htake]
                  omega
              · rw [if_neg hlong]
                constructor
                · simp [ContextBuilder.sumContentLengths, h1]
                · dsimp only
                  have : (document.text.length : Int) ≤
                      (maxChars : Int) - (st.usedChars : Int) := by omega
                  omega

theorem addRequestedFiles_budget_inv
    (readDoc : String → Option ContextBuilder.DocumentReadResult)
    (ov : List (String × ContextBuilder.DocumentOverride)) (prot : List String)
    (maxChars : Nat) (l : List String) (st st' : ContextBuilder.BuildState)
    (hok : ContextBuilder.addRequestedFiles readDoc ov prot maxChars st l = .ok st')
    (h1 : st.usedChars = ContextBuilder.sumContentLengths st.files)
    (h2 : st.usedChars ≤ maxChars) :
    st'.usedChars = ContextBuilder.sumContentLengths st'.files ∧
      st'.usedChars ≤ maxChars := by
  induction l generalizing st with
  | nil =>
    cases hok
    exact ⟨h1, h2⟩
  | cons f rest ih =>
    unfold ContextBuilder.addRequestedFiles at hok
    cases hf : ContextBuilder.tryAddFile readDoc ov prot maxChars st (some f) with
    | error e =>
      rw [hf] at hok
      exact absurd hok (by simp)
    | ok stMid =>
      rw [hf] at hok
      obtain ⟨g1, g2⟩ := tryAddFile_budget_inv readDoc ov prot maxChars st
        (some f) stMid hf h1 h2
      exact ih stMid hok g1 g2

/-- C1: for every assembly request with a positive `maxChars` that
produces a bundle, the sum of the included files' content lengths is at
most `maxChars`, and `totalChars` equals that sum. -/
theorem buildContext_budget_invariant
    (readDoc : String → Option ContextBuilder.DocumentReadResult)
    (input : ContextBuilder.BuildContextInput)
    (bundle : ContextBuilder.BuildContextOutput) (m : Int)
    (hmax : input.maxChars = some m) (hpos : 0 < m)
    (hok : ContextBuilder.buildContext readDoc input = .ok bundle) :
    ContextBuilder.sumContentLengths bundle.files ≤ m.toNat ∧
      bundle.totalChars = ContextBuilder.sumContentLengths bundle.files := by
  simp only [ContextBuilder.buildContext] at hok
  rw [hmax] at hok
  have hem : ContextBuilder.effectiveMaxChars (some m) = m.toNat := by
    simp only [ContextBuilder.effectiveMaxChars]
    rw [if_pos hpos]
  rw [hem] at hok
  cases h₁ : ContextBuilder.tryAddFile readDoc
      (ContextBuilder.buildOverrideMap input.overrides)
      (ContextBuilder.buildProtectedPathSet input.protectedPaths) m.toNat {}
      input.activeFile with
  | error e =>
    rw [h₁] at hok
    exact absurd hok (by simp)
  | ok st₁ =>
    rw [h₁] at hok
    dsimp only at hok
    obtain ⟨g1, g2⟩ := tryAddFile_budget_inv _ _ _ _ _ _ _ h₁ rfl (Nat.zero_le _)
    cases h₂ : ContextBuilder.addRequestedFiles readDoc
        (ContextBuilder.buildOverrideMap input.overrides)
        (ContextBuilder.buildProtectedPathSet input.protectedPaths) m.toNat st₁
        input.requestedFiles with
    | error e =>
      rw [h₂] at hok
      exact absurd hok (by simp)
    | ok stFinal =>
      rw [h₂] at hok
      dsimp only at hok
      obtain ⟨g3, g4⟩ := addRequestedFiles_budget_inv _ _ _ _ _ _ _ h₂ g1 g2
      cases hok
      exact ⟨by rw [← g3]; exact g4, g3⟩

/-- Witness for C1: a concrete request with `maxChars = 5` on an
11-character file yields a bundle whose included characters total 5. -/
theorem buildContext_budget_invariant_witness :
    ContextBuilder.sumContentLengths bundleBudgetEx.files ≤ (5 : Int).toNat ∧
      bundleBudgetEx.totalChars = ContextBuilder.sumContentLengths bundleBudgetEx.files :=
  buildContext_budget_invariant readDocEx inputBudgetEx bundleBudgetEx 5
    (by rfl) (by decide) (by rfl)

theorem overrideLookup_buildOverrideMap_none
    (overrides : List ContextBuilder.DocumentOverride) (key : String)
    (h : ∀ o ∈ overrides, ContextBuilder.normalizePath o.path ≠ key) :
    ContextBuilder.overrideLookup (ContextBuilder.buildOverrideMap overrides) key = none := by
  unfold ContextBuilder.overrideLookup
  rw [Option.map_eq_none']
  rw [List.find?_eq_none]
  intro x hx
  rw [List.mem_reverse] at hx
  simp only [ContextBuilder.buildOverrideMap, List.mem_filterMap] at hx
  obtain ⟨o, ho, hxo⟩ := hx
  by_cases hk : ContextBuilder.normalizePath o.path = ""
  · rw [if_pos hk] at hxo
    exact absurd hxo (by simp)
  · rw [if_neg hk] at hxo
    cases hxo
    simpa using h o ho

theorem tryAddFile_protected_error
    (readDoc : String → Option ContextBuilder.DocumentReadResult)
    (ov : List (String × ContextBuilder.DocumentOverride)) (prot : List String)
    (maxChars : Nat) (st : ContextBuilder.BuildState) (p : String)
    (hprot : ContextBuilder.normalizePath p ∈ prot)
    (hov : ContextBuilder.overrideLookup ov (ContextBuilder.normalizePath p) = none)
    (hne : ContextBuilder.normalizePath p ≠ "")
    (hseen : ContextBuilder.normalizePath p ∉ st.seen) :
    ∃ e, ContextBuilder.tryAddFile readDoc ov prot maxChars st (some p) = .error e := by
  have hp : p ≠ "" := by
    intro he
    subst he
    exact hne rfl
  refine ⟨s!"Cannot read {p} from disk: open editor buffer must be provided as an override.", ?_⟩
  simp only [ContextBuilder.tryAddFile]
  rw [if_neg hp, if_neg (by push_neg; exact ⟨hne, hseen⟩), if_pos ⟨hprot, hov⟩]

theorem tryAddFile_seen_preserved
    (readDoc : String → Option ContextBuilder.DocumentReadResult)
    (ov : List (String × ContextBuilder.DocumentOverride)) (prot : List String)
    (maxChars : Nat) (st st' : ContextBuilder.BuildState) (q : Option String)
    (key : String)
    (hok : ContextBuilder.tryAddFile readDoc ov prot maxChars st q = .ok st')
    (hkprot : key ∈ prot)
    (hkov : ContextBuilder.overrideLookup ov key = none)
    (hseen : key ∉ st.seen) :
    key ∉ st'.seen := by
  cases q with
  | none =>
    cases hok
    exact hseen
  | some p =>
    simp only [ContextBuilder.tryAddFile] at hok
    by_cases hp : p = ""
    · rw [if_pos hp] at hok
      cases hok
      exact hseen
    · rw [if_neg hp] at hok
      by_cases hn : ContextBuilder.normalizePath p = "" ∨
          ContextBuilder.normalizePath p ∈ st.seen
      · rw [if_pos hn] at hok
        cases hok
        exact hseen
      · rw [if_neg hn] at hok
        by_cases hprot : ContextBuilder.normalizePath p ∈ prot ∧
            ContextBuilder.overrideLookup ov (ContextBuilder.normalizePath p) = none
        · rw [if_pos hprot] at hok
          exact absurd hok (by simp)
        · rw [if_neg hprot] at hok
          have hkey : ContextBuilder.normalizePath p ≠ key := by
            intro he
            rw [he] at hprot
            exact hprot ⟨hkprot, hkov⟩
          cases hdoc : ContextBuilder.resolveDocument readDoc
              (ContextBuilder.normalizePath p) ov with
          | none =>
            rw [hdoc] at hok
            by_cases hp2 : ContextBuilder.normalizePath p ∈ prot
            · rw [if_pos hp2] at hok
              exact absurd hok (by simp)
            · rw [if_neg hp2] at hok
              cases hok
              exact hseen
          | some document =>
            rw [hdoc] at hok
            dsimp only at hok
            by_cases hrem : (maxChars : Int) - (st.usedChars : Int) ≤ 0
            · rw [if_pos hrem] at hok
              cases hok
              exact hseen
            · rw [if_neg hrem] at hok
              cases hok
              dsimp only
              intro hmem
              rcases List.mem_append.mp hmem with hmem | hmem
              · exact hseen hmem
              · rcases List.mem_singleton.mp hmem with rfl
                exact hkey rfl

theorem addRequestedFiles_protected_error
    (readDoc : String → Option ContextBuilder.DocumentReadResult)
    (ov : List (String × ContextBuilder.DocumentOverride)) (prot : List String)
    (maxChars : Nat) (p : String)
    (hprot : ContextBuilder.normalizePath p ∈ prot)
    (hov : ContextBuilder.overrideLookup ov (ContextBuilder.normalizePath p) = none)
    (hne : ContextBuilder.normalizePath p ≠ "") :
    ∀ (l : List String) (st : ContextBuilder.BuildState), p ∈ l →
      ContextBuilder.normalizePath p ∉ st.seen →
      ∃ e, ContextBuilder.addRequestedFiles readDoc ov prot maxChars st l = .error e := by
  intro l
  induction l with
  | nil =>
    intro st hp
    exact absurd hp (List.not_mem_nil p)
  | cons q rest ih =>
    intro st hp hseen
    unfold ContextBuilder.addRequestedFiles
    cases hq : ContextBuilder.tryAddFile readDoc ov prot maxChars st (some q) with
    | error e => exact ⟨e, rfl⟩
    | ok st' =>
      rcases List.mem_cons.mp hp with rfl | hp'
      · obtain ⟨e, he⟩ := tryAddFile_protected_error readDoc ov prot maxChars st p
          hprot hov hne hseen
        rw [he] at hq
        exact absurd hq (by simp)
      · have hseen' := tryAddFile_seen_preserved readDoc ov prot maxChars st st'
          (some q) (ContextBuilder.normalizePath p) hq hprot hov hseen
        obtain ⟨e, he⟩ := ih st' hp' hseen'
        exact ⟨e, he⟩

/-- C2: whenever a candidate path (the active file or a requested file)
normalizes into the protected-path set and no supplied override has the
same normalized path, `buildContext` throws and no bundle is produced. -/
theorem buildContext_protected_path_fails
    (readDoc : String → Option ContextBuilder.DocumentReadResult)
    (input : ContextBuilder.BuildContextInput) (p : String)
    (hcand : input.activeFile = some p ∨ p ∈ input.requestedFiles)
    (hprot : ContextBuilder.normalizePath p ∈
      ContextBuilder.buildProtectedPathSet input.protectedPaths)
    (hnoov : ∀ o ∈ input.overrides,
      ContextBuilder.normalizePath o.path ≠ ContextBuilder.normalizePath p) :
    ∃ e, ContextBuilder.buildContext readDoc input = .error e := by
  have hne : ContextBuilder.normalizePath p ≠ "" := by
    unfold ContextBuilder.buildProtectedPathSet at hprot
    rw [List.mem_filter] at hprot
    simpa using hprot.2
  have hov := overrideLookup_buildOverrideMap_none input.overrides
    (ContextBuilder.normalizePath p) hnoov
  simp only [ContextBuilder.buildContext]
  rcases hcand with hactive | hreq
  · obtain ⟨e, he⟩ := tryAddFile_protected_error readDoc
      (ContextBuilder.buildOverrideMap input.overrides)
      (ContextBuilder.buildProtectedPathSet input.protectedPaths)
      (ContextBuilder.effectiveMaxChars input.maxChars) {} p hprot hov hne
      (List.not_mem_nil _)
    rw [hactive, he]
    exact ⟨e, rfl⟩
  · cases h₁ : ContextBuilder.tryAddFile readDoc
        (ContextBuilder.buildOverrideMap input.overrides)
        (ContextBuilder.buildProtectedPathSet input.protectedPaths)
        (ContextBuilder.effectiveMaxChars input.maxChars) {} input.activeFile with
    | error e =>
      exact ⟨e, rfl⟩
    | ok st₁ =>
      dsimp only
      have hseen₁ : ContextBuilder.normalizePath p ∉ st₁.seen :=
        tryAddFile_seen_preserved readDoc _ _ _ {} st₁ input.activeFile
          (ContextBuilder.normalizePath p) h₁ hprot hov (List.not_mem_nil _)
      obtain ⟨e, he⟩ := addRequestedFiles_protected_error readDoc
        (ContextBuilder.buildOverrideMap input.overrides)
        (ContextBuilder.buildProtectedPathSet input.protectedPaths)
        (ContextBuilder.effectiveMaxChars input.maxChars) p hprot hov hne
        input.requestedFiles st₁ hreq hseen₁
      rw [he]
      exact ⟨e, rfl⟩

/-- Witness for C2: a request whose active file is protected and has no
override fails. -/
theorem buildContext_protected_path_fails_witness :
    ∃ e, ContextBuilder.buildContext readDocEx inputProtectedEx = .error e :=
  buildContext_protected_path_fails readDocEx inputProtectedEx "src/app.ts"
    (Or.inl rfl) (by decide)
    (fun o ho => absurd ho (List.not_mem_nil o))
